/-
Verification of the concurrent dispatch engine of
aakash4dev/ethereum-transaction-simulator.

The Go source is shallowly embedded: every RPC interaction (pending nonce
query, gas price suggestion, balance query, transaction submission) is an
oracle value supplied to the embedded function, machine integers (uint64)
are Nat reduced modulo 2^64 at the points where Go would overflow, and
big.Int quantities are unbounded Int/Nat.  Goroutine bodies guarded by a
mutex are embedded as sequential state-passing functions; the buffered
channel used as a counting semaphore is embedded as a trace model whose
validity condition is exactly the channel-send-only-when-not-full
discipline of the Go `select`.
-/
import Mathlib

set_option maxHeartbeats 1000000

namespace EthTxSim

/-- Width of Go's uint64. -/
def U64 : Nat := 2 ^ 64

/-- Error value carried by a failing RPC call (Go `error`). -/
inductive RpcErr where
  | remote (msg : String)
deriving Repr, DecidableEq

/-- State of `transaction.NonceManager` (src/internal/transaction/nonce.go):
the `client` and `address` fields are external handles and do not appear
in the state; the mutex is represented by the sequential embedding. -/
structure NonceManager where
  currentNonce : Nat
  initialized : Bool
deriving Repr, DecidableEq

/-- `NewNonceManager`: Go zero values for the non-handle fields. -/
def NonceManager.new : NonceManager :=
  { currentNonce := 0, initialized := false }

/-- `NonceManager.GetNextNonce` (nonce.go lines 33-56).  The result of the
`PendingNonceAt` RPC is the `pendingNonceAt` oracle.  On RPC failure the
call fails; otherwise the remote value is adopted when the manager is
uninitialized or the remote value exceeds the local counter, the local
counter is returned, and the counter is incremented (uint64 arithmetic). -/
def getNextNonce (nm : NonceManager) (pendingNonceAt : Except RpcErr Nat) :
    Except RpcErr (Nat × NonceManager) :=
  match pendingNonceAt with
  | .error e => .error e
  | .ok pendingNonce =>
    let nm1 : NonceManager :=
      if !nm.initialized || decide (pendingNonce > nm.currentNonce) then
        { currentNonce := pendingNonce, initialized := true }
      else nm
    .ok (nm1.currentNonce,
         { nm1 with currentNonce := (nm1.currentNonce + 1) % U64 })

/-- `NonceManager.Reset` (nonce.go lines 59-70): unconditionally adopt the
remote pending nonce and mark the manager initialized. -/
def NonceManager.reset (nm : NonceManager) (pendingNonceAt : Except RpcErr Nat) :
    Except RpcErr NonceManager :=
  match pendingNonceAt with
  | .error e => .error e
  | .ok nonce => .ok { nm with currentNonce := nonce, initialized := true }

/-- Values returned by `n` successive `GetNextNonce` calls on one manager
while the remote endpoint keeps reporting the fixed pending count `p`
(the calls serialize through the manager's mutex, so a batch of concurrent
calls is some sequential order of the same `n` calls). -/
def nonceRun (p : Nat) : Nat → NonceManager → List Nat
  | 0, _ => []
  | n + 1, nm =>
    match getNextNonce nm (.ok p) with
    | .error _ => []
    | .ok (v, nm1) => v :: nonceRun p n nm1

/-- Modelled from the spec's words (§4.1 implementation discipline), for
comparison with `getNextNonce`: "query the remote pending sequence count;
if uninitialized or the remote value exceeds the local counter, adopt the
remote value; assign the current local counter as the return value;
increment the local counter". -/
def getNextNonceSpec (nm : NonceManager) (remote : Except RpcErr Nat) :
    Except RpcErr (Nat × NonceManager) :=
  match remote with
  | .error e => .error e
  | .ok r =>
    let counter := if nm.initialized = false ∨ nm.currentNonce < r then r
                   else nm.currentNonce
    .ok (counter, { currentNonce := (counter + 1) % U64, initialized := true })

/-- First component of a successful allocation, if any. -/
def nonceValue (r : Except RpcErr (Nat × NonceManager)) : Option Nat :=
  match r with
  | .error _ => none
  | .ok (v, _) => some v

/-! Counting-semaphore trace model for the buffered channel
`semaphore := make(chan struct\x7b\x7d, cap)` of `SendParallelTransactions`
and `FundWallets`.  An `acquire` event is a successful channel send (spawning
one send goroutine), a `release` event is the deferred receive when that
goroutine finishes.  A trace is valid when every send happens while fewer
than `cap` slots are held (the Go runtime blocks or the `select` falls to
`default` otherwise) and every receive while at least one slot is held. -/

inductive SemEvent where
  | acquire
  | release
deriving Repr, DecidableEq

/-- Number of held slots after one event. -/
def semStep (c : Nat) (e : SemEvent) : Nat :=
  match e with
  | .acquire => c + 1
  | .release => c - 1

/-- Number of held slots after a trace, starting from `c` held slots. -/
def semCountFrom (c : Nat) (tr : List SemEvent) : Nat :=
  tr.foldl semStep c

/-- Channel discipline: sends only below capacity, receives only when held. -/
def semValidFrom (cap : Nat) : Nat → List SemEvent → Bool
  | _, [] => true
  | c, .acquire :: tr => decide (c < cap) && semValidFrom cap (c + 1) tr
  | c, .release :: tr => decide (0 < c) && semValidFrom cap (c - 1) tr

/-- `transaction.ParallelConfig` (src/unnamed/part_003 lines 361-370); the
opaque payload bytes (`Data`) are irrelevant to every claim and omitted.
`retryDelay` is in milliseconds. -/
structure ParallelConfig where
  value : Int
  gasLimit : Nat
  maxTransactions : Nat
  maxConcurrentRequests : Nat
  balanceCheckInterval : Nat
  maxRetries : Nat
  retryDelay : Nat
deriving Repr, DecidableEq

/-- The default-filling done by `NewParallelSender` (part_003 lines 373-386):
zero-valued fields become 2000 / 100 / 3 / 100 ms. -/
def ParallelConfig.withDefaults (c : ParallelConfig) : ParallelConfig :=
  { c with
    maxConcurrentRequests :=
      if c.maxConcurrentRequests = 0 then 2000 else c.maxConcurrentRequests,
    balanceCheckInterval :=
      if c.balanceCheckInterval = 0 then 100 else c.balanceCheckInterval,
    maxRetries := if c.maxRetries = 0 then 3 else c.maxRetries,
    retryDelay := if c.retryDelay = 0 then 100 else c.retryDelay }

/-- Cap used by `ParallelSender.recordError` (part_003 line 608). -/
def maxStoredErrors : Nat := 1000

/-- `ParallelSender.recordError` (part_003 lines 604-611): append the error
only while fewer than 1000 errors are stored. -/
def recordError {α : Type} (errors : List α) (e : α) : List α :=
  if errors.length < maxStoredErrors then errors ++ [e] else errors

/-- A generated wallet (src/unnamed/part_005 `Wallet`): key material and the
address derived from it; the client handle and per-wallet nonce manager
state are external/initial and carry no information here. -/
structure GenWallet where
  privateKey : Nat
  address : Nat
deriving Repr, DecidableEq

/-- `Manager.GenerateWallets` (part_005 lines 42-61): `wallets` is allocated
with `make([]*Wallet, n)` (all nil); index `i` is filled only when the i-th
`crypto.GenerateKey` call (`keyGen i`) succeeds, a failure hits `continue`
and leaves `wallets[i] = nil` (here `none`). -/
def generateWallets (keyGen : Nat → Option Nat) (pubkeyToAddress : Nat → Nat)
    (n : Nat) : List (Option GenWallet) :=
  (List.range n).map (fun i =>
    match keyGen i with
    | none => none
    | some k => some { privateKey := k, address := pubkeyToAddress k })

/-- `Manager.CheckBalance` (part_005 lines 128-134): fetch the balance and
return `balance.Cmp(minBalance) > 0`, i.e. strictly greater. -/
def checkBalance (balanceAt : Except RpcErr Int) (minBalance : Int) :
    Except RpcErr (Bool × Int) :=
  match balanceAt with
  | .error e => .error e
  | .ok balance => .ok (decide (balance > minBalance), balance)

/-- Fleet assembly of `runParallel` (src/cmd/simulator/parallel.go lines
71-85): the original wallet always participates; `WalletCount` generated
wallets are appended only when `CheckBalance` returned true. -/
def runParallelWalletTotal (hasBalance : Bool) (walletCount : Nat) : Nat :=
  if hasBalance then 1 + walletCount else 1

/-- Outcome of the stages of one funding goroutine of `Manager.FundWallets`
(part_005 lines 72-108), in source order: nonce allocation, gas price
suggestion, signing, submission; `ok` means every stage succeeded. -/
inductive FundOutcome where
  | nonceErr
  | gasPriceErr
  | signErr
  | sendErr
  | ok
deriving Repr, DecidableEq

/-- The error one funding goroutine pushes onto `errChan`, if any: each
failing stage sends exactly one error and returns. -/
def fundOne (o : FundOutcome) : Option FundOutcome :=
  match o with
  | .ok => none
  | .nonceErr => some .nonceErr
  | .gasPriceErr => some .gasPriceErr
  | .signErr => some .signErr
  | .sendErr => some .sendErr

/-- Sequentialized body of `FundWallets`: one goroutine is spawned per
target wallet unconditionally (the range loop has no early exit), each
contributing at most one error.  Result: (number of targets attempted,
errors collected from `errChan`). -/
def fundWalletsRun : List FundOutcome → Nat × List FundOutcome
  | [] => (0, [])
  | o :: rest =>
    let r := fundWalletsRun rest
    (r.1 + 1, (fundOne o).toList ++ r.2)

/-- `FundWallets` return value (part_005 lines 114-124): `some n` stands for
the error `funding errors: n wallets failed`, `none` for nil. -/
def fundWallets (outcomes : List FundOutcome) : Option Nat :=
  let r := fundWalletsRun outcomes
  if r.2.length > 0 then some r.2.length else none

/-- Capacity of the funding semaphore `make(chan struct\x7b\x7d, 50)`
(part_005 line 68). -/
def fundingSemCapacity : Nat := 50

/-- Per-attempt RPC/signing oracles for `sendTransactionWithRetry`
(part_003 lines 508-584), indexed by the 0-based `attempt` counter. -/
structure AttemptOracles where
  nonce : Nat → Except RpcErr Nat
  gasPrice : Nat → Except RpcErr Int
  sign : Nat → Except RpcErr Unit
  send : Nat → Except RpcErr Unit

/-- Observable bookkeeping of one `sendTransactionWithRetry` call:
loop iterations executed, backoff sleeps performed (milliseconds),
`recordError` calls, `totalFailed` increments, and whether `totalSent`
was incremented (success). -/
structure AttemptResult where
  attempts : Nat
  delays : List Nat
  recordedErrors : Nat
  failedCount : Nat
  success : Bool
deriving Repr, DecidableEq

/-- `true` iff the RPC result is a success. -/
def exceptOk {α : Type} (r : Except RpcErr α) : Bool :=
  match r with
  | .ok _ => true
  | .error _ => false

/-- The retry loop `for attempt := 0; attempt <= maxRetries; attempt++` of
`sendTransactionWithRetry`, at attempt index `a` with `fuel` loop
iterations remaining (`fuel = maxRetries + 1 - a` at the entry call, so the
fuel-exhausted branch is the post-loop failure record at lines 582-583).
Stage order per iteration: nonce (failure fatal, no retry), gas price
(failure retried with sleep `retryDelay * (attempt+1)` while
`attempt < maxRetries`), signing (failure fatal), submission (failure
retried like gas price); success records one sent transaction. -/
def retryLoop (maxRetries retryDelay : Nat) (o : AttemptOracles) :
    Nat → Nat → AttemptResult
  | _, 0 =>
    { attempts := 0, delays := [], recordedErrors := 1,
      failedCount := 1, success := false }
  | a, fuel + 1 =>
    match o.nonce a with
    | .error _ =>
      { attempts := 1, delays := [], recordedErrors := 1,
        failedCount := 1, success := false }
    | .ok _ =>
      match o.gasPrice a with
      | .error _ =>
        if a < maxRetries then
          let r := retryLoop maxRetries retryDelay o (a + 1) fuel
          { attempts := r.attempts + 1,
            delays := retryDelay * (a + 1) :: r.delays,
            recordedErrors := r.recordedErrors,
            failedCount := r.failedCount, success := r.success }
        else
          { attempts := 1, delays := [], recordedErrors := 1,
            failedCount := 1, success := false }
      | .ok _ =>
        match o.sign a with
        | .error _ =>
          { attempts := 1, delays := [], recordedErrors := 1,
            failedCount := 1, success := false }
        | .ok _ =>
          match o.send a with
          | .error _ =>
            if a < maxRetries then
              let r := retryLoop maxRetries retryDelay o (a + 1) fuel
              { attempts := r.attempts + 1,
                delays := retryDelay * (a + 1) :: r.delays,
                recordedErrors := r.recordedErrors,
                failedCount := r.failedCount, success := r.success }
            else
              { attempts := 1, delays := [], recordedErrors := 1,
                failedCount := 1, success := false }
          | .ok _ =>
            { attempts := 1, delays := [], recordedErrors := 0,
              failedCount := 0, success := true }

/-- `sendTransactionWithRetry` entry point: the loop admits at most
`maxRetries + 1` iterations. -/
def sendTransactionWithRetry (cfg : ParallelConfig) (o : AttemptOracles) :
    AttemptResult :=
  retryLoop cfg.maxRetries cfg.retryDelay o 0 (cfg.maxRetries + 1)

/-- Per-iteration oracles of the wallet dispatch loop of
`SendParallelTransactions` (part_003 lines 407-454).  `cancelled` merges
the iteration's context polls; `cacheHit` is the `lastBalance ≠ nil ∧
time.Since(lastBalanceTime) < 1 s` condition of `checkWalletBalance`
(wall-clock time is external); `semFree` tells whether the admission
semaphore send succeeds in the `select`. -/
structure IterOracle where
  cancelled : Bool
  cacheHit : Bool
  cachedBalance : Int
  balanceAt : Except RpcErr Int
  suggestGasPrice : Except RpcErr Int
  semFree : Bool

/-- `minRequired = gasPrice * gasLimit + value` (part_003 lines 477-478 and
495-496). -/
def minRequired (gasPrice : Int) (gasLimit : Nat) (value : Int) : Int :=
  gasPrice * (gasLimit : Int) + value

/-- `ParallelSender.checkWalletBalance` (part_003 lines 465-505): on a cache
hit only the gas price is fetched and the cached balance compared;
otherwise balance and gas price are fetched; either way the result is
`balance.Cmp(minRequired) >= 0`. -/
def checkWalletBalance (gasLimit : Nat) (value : Int) (o : IterOracle) :
    Except RpcErr Bool :=
  if o.cacheHit then
    match o.suggestGasPrice with
    | .error e => .error e
    | .ok gp => .ok (decide (o.cachedBalance ≥ minRequired gp gasLimit value))
  else
    match o.balanceAt with
    | .error e => .error e
    | .ok bal =>
      match o.suggestGasPrice with
      | .error e => .error e
      | .ok gp => .ok (decide (bal ≥ minRequired gp gasLimit value))

/-- Why the per-wallet loop stopped. -/
inductive StepExit where
  | cancelled
  | balanceCheckFailed
  | outOfBalance
deriving Repr, DecidableEq

/-- Result of one loop iteration: keep running (with the new value of
`balanceCheckCounter`, and whether a send goroutine was dispatched this
iteration) or exit. -/
inductive StepOut where
  | running (counter : Nat) (dispatched : Bool)
  | exited (e : StepExit)
deriving Repr, DecidableEq

/-- One iteration's outcome plus its observable side effects: whether
`recordError` was called and whether a balance check was performed. -/
structure StepResult where
  out : StepOut
  recorded : Bool
  checkedBalance : Bool
deriving Repr, DecidableEq

/-- One iteration of the per-wallet loop (part_003 lines 414-453):
poll cancellation; increment `balanceCheckCounter`; when the counter is a
multiple of the interval run `checkWalletBalance` — an RPC failure records
one error and exits, an insufficient balance exits silently; otherwise
dispatch one send goroutine when the semaphore has a free slot (else wait
10 ms) and continue. -/
def loopStep (interval gasLimit : Nat) (value : Int) (counter : Nat)
    (o : IterOracle) : StepResult :=
  if o.cancelled then
    { out := .exited .cancelled, recorded := false, checkedBalance := false }
  else
    if (counter + 1) % interval = 0 then
      match checkWalletBalance gasLimit value o with
      | .error _ =>
        { out := .exited .balanceCheckFailed, recorded := true,
          checkedBalance := true }
      | .ok hasBalance =>
        if hasBalance then
          { out := .running (counter + 1) o.semFree, recorded := false,
            checkedBalance := true }
        else
          { out := .exited .outOfBalance, recorded := false,
            checkedBalance := true }
    else
      { out := .running (counter + 1) o.semFree, recorded := false,
        checkedBalance := false }

/-- Final observation of a bounded run of the loop. -/
inductive RunOutcome where
  | stillRunning (counter : Nat)
  | exited (e : StepExit) (recorded : Bool)
deriving Repr, DecidableEq

/-- Run the per-wallet loop for at most `fuel` iterations; the oracle of an
iteration is indexed by the current counter value (which increases by one
each iteration, so each iteration sees its own oracle). -/
def loopRun (interval gasLimit : Nat) (value : Int)
    (oracles : Nat → IterOracle) (counter : Nat) : Nat → RunOutcome
  | 0 => .stillRunning counter
  | fuel + 1 =>
    let r := loopStep interval gasLimit value counter (oracles counter)
    match r.out with
    | .running c1 _ => loopRun interval gasLimit value oracles c1 fuel
    | .exited e => .exited e r.recorded

theorem getNextNonce_initialized (c p : Nat) (hpc : p ≤ c) :
    getNextNonce { currentNonce := c, initialized := true } (.ok p) =
      .ok (c, { currentNonce := (c + 1) % U64, initialized := true }) := by
  simp [getNextNonce, Nat.not_lt.mpr hpc]

theorem nonceRun_initialized (p : Nat) :
    ∀ n c : Nat, p ≤ c → c + n ≤ U64 →
      nonceRun p n { currentNonce := c, initialized := true } =
        (List.range n).map (c + ·) := by
  intro n
  induction n with
  | zero => intro c _ _; simp [nonceRun]
  | succ m ih =>
    intro c hpc hle
    rw [nonceRun, getNextNonce_initialized c p hpc]
    cases m with
    | zero => simp [nonceRun, List.range_succ]
    | succ k =>
      have hc1 : c + 1 < U64 := by omega
      have hmod : (c + 1) % U64 = c + 1 := Nat.mod_eq_of_lt hc1
      rw [hmod]
      show c :: nonceRun p (k + 1)
          { currentNonce := c + 1, initialized := true } = _
      rw [ih (c + 1) (by omega) (by omega)]
      conv_rhs => rw [List.range_succ_eq_map, List.map_cons, List.map_map]
      have hfun : ((fun x => c + x) ∘ Nat.succ) = fun x => c + 1 + x := by
        funext i; simp [Function.comp, Nat.succ_eq_add_one]; omega
      rw [hfun]
      simp

theorem nonceRun_new (p n : Nat) :
    nonceRun p n NonceManager.new =
      nonceRun p n { currentNonce := p, initialized := true } := by
  cases n with
  | zero => simp [nonceRun]
  | succ m =>
    rw [nonceRun, nonceRun, getNextNonce_initialized p p le_rfl]
    simp [getNextNonce, NonceManager.new]

/-- C1: starting from a fresh manager whose remote endpoint keeps reporting
the fixed pending count `p`, `n` successive `GetNextNonce` calls return
exactly `p, p+1, …, p+n-1`: pairwise distinct, strictly increasing, a
contiguous run beginning at the initial remote sequence count (provided
the run does not overflow the uint64 counter). -/
theorem c1_sequence_uniqueness (p n : Nat) (hov : p + n ≤ U64) :
    nonceRun p n NonceManager.new = (List.range n).map (p + ·) ∧
    (nonceRun p n NonceManager.new).Pairwise (· < ·) ∧
    (nonceRun p n NonceManager.new).Nodup ∧
    (0 < n → (nonceRun p n NonceManager.new).head? = some p) := by
  have hrun : nonceRun p n NonceManager.new = (List.range n).map (p + ·) := by
    rw [nonceRun_new, nonceRun_initialized p n p le_rfl hov]
  have hpw : (nonceRun p n NonceManager.new).Pairwise (· < ·) := by
    rw [hrun]
    exact (List.pairwise_lt_range n).map _ (fun a b hab => by omega)
  refine ⟨hrun, hpw, hpw.imp Nat.ne_of_lt, fun hn => ?_⟩
  rw [hrun]
  cases n with
  | zero => omega
  | succ m => rw [List.range_succ_eq_map]; simp

/-- Closed witness for `c1_sequence_uniqueness` at `p = 7`, `n = 3`. -/
theorem c1_sequence_uniqueness_witness :
    7 + 3 ≤ U64 ∧ nonceRun 7 3 NonceManager.new = [7, 8, 9] := by
  have h := c1_sequence_uniqueness 7 3 (by decide)
  exact ⟨by decide, by rw [h.1]; decide⟩

/-- C2: `GetNextNonce` coincides with the spec's algorithm on every input:
on RPC failure it fails; otherwise, inside the critical section, it adopts
the remote pending count when uninitialized or when the remote value
exceeds the local counter, returns the local counter, and increments it. -/
theorem c2_get_next_nonce_algorithm (nm : NonceManager)
    (remote : Except RpcErr Nat) :
    getNextNonce nm remote = getNextNonceSpec nm remote := by
  cases remote with
  | error e => rfl
  | ok p =>
    simp only [getNextNonce, getNextNonceSpec]
    by_cases hinit : nm.initialized
    · by_cases hgt : nm.currentNonce < p
      · simp [hinit, hgt]
      · simp [hinit, hgt]
    · have h0 : nm.initialized = false := by
        revert hinit; cases nm.initialized <;> simp
      simp [h0]

/-- C3: if the remote pending count has jumped strictly ahead of the local
counter, the next `GetNextNonce` call returns a value at least that remote
count (an externally consumed sequence value is never handed out again). -/
theorem c3_monotonic_resync (nm : NonceManager) (p v : Nat)
    (hjump : nm.currentNonce < p)
    (hv : nonceValue (getNextNonce nm (.ok p)) = some v) :
    p ≤ v := by
  have hcond : (!nm.initialized || decide (p > nm.currentNonce)) = true := by
    simp [hjump]
  simp only [getNextNonce, nonceValue, hcond, if_true] at hv
  simp at hv
  omega

/-- Closed witness for `c3_monotonic_resync`: a manager at local counter 5
whose remote reports 10 returns a value ≥ 10 (namely 10). -/
theorem c3_monotonic_resync_witness :
    (5 < 10 ∧
      nonceValue (getNextNonce { currentNonce := 5, initialized := true }
        (.ok 10)) = some 10) ∧ 10 ≤ 10 :=
  ⟨⟨by decide, by decide⟩,
    c3_monotonic_resync { currentNonce := 5, initialized := true } 10 10
      (by decide) (by decide)⟩


theorem semCount_le_of_valid (cap : Nat) :
    ∀ (pre suf : List SemEvent) (c : Nat), c ≤ cap →
      semValidFrom cap c (pre ++ suf) = true → semCountFrom c pre ≤ cap := by
  intro pre
  induction pre with
  | nil => intro suf c hc _; simpa [semCountFrom] using hc
  | cons e rest ih =>
    intro suf c hc hv
    cases e with
    | acquire =>
      rw [List.cons_append] at hv
      simp only [semValidFrom, Bool.and_eq_true, decide_eq_true_eq] at hv
      simpa [semCountFrom, semStep] using ih suf (c + 1) (by omega) hv.2
    | release =>
      rw [List.cons_append] at hv
      simp only [semValidFrom, Bool.and_eq_true, decide_eq_true_eq] at hv
      simpa [semCountFrom, semStep] using ih suf (c - 1) (by omega) hv.2

theorem fundWalletsRun_fst (outcomes : List FundOutcome) :
    (fundWalletsRun outcomes).1 = outcomes.length := by
  induction outcomes with
  | nil => rfl
  | cons o rest ih => simp [fundWalletsRun, ih]

theorem fundWalletsRun_snd_length (outcomes : List FundOutcome) :
    (fundWalletsRun outcomes).2.length =
      outcomes.countP (fun o => decide (o ≠ FundOutcome.ok)) := by
  induction outcomes with
  | nil => rfl
  | cons o rest ih =>
    cases o <;>
      simp [fundWalletsRun, fundOne, List.countP_cons, ih]

theorem foldl_recordError {α : Type} :
    ∀ (es l : List α), l.length ≤ maxStoredErrors →
      es.foldl recordError l = l ++ es.take (maxStoredErrors - l.length) := by
  intro es
  induction es with
  | nil => intro l _; simp
  | cons e rest ih =>
    intro l h
    by_cases hlt : l.length < maxStoredErrors
    · rw [List.foldl_cons]
      have hrec : recordError l e = l ++ [e] := by simp [recordError, hlt]
      rw [hrec, ih (l ++ [e]) (by simp [List.length_append]; omega)]
      simp only [List.length_append, List.length_cons, List.length_nil]
      have htake : maxStoredErrors - l.length =
          (maxStoredErrors - (l.length + (0 + 1))) + 1 := by omega
      rw [htake, List.take_succ_cons, List.append_assoc]
      simp
    · have hlen : l.length = maxStoredErrors := by omega
      rw [List.foldl_cons]
      have hrec : recordError l e = l := by simp [recordError, hlt]
      rw [hrec, ih l h, hlen]
      simp

/-- C4: in every trace respecting the channel discipline of the admission
semaphore, the number of in-flight send goroutines (held slots) after any
prefix never exceeds the capacity; `NewParallelSender` makes that capacity
2000 when the configuration leaves it unset and keeps it otherwise; and an
iteration of the dispatch loop launches a send goroutine only when the
semaphore send succeeded (`semFree`). -/
theorem c4_admission_bound (cfg : ParallelConfig) (cap : Nat)
    (pre suf : List SemEvent)
    (hvalid : semValidFrom cap 0 (pre ++ suf) = true) :
    semCountFrom 0 pre ≤ cap ∧
    (cfg.maxConcurrentRequests = 0 →
      (ParallelConfig.withDefaults cfg).maxConcurrentRequests = 2000) ∧
    (cfg.maxConcurrentRequests ≠ 0 →
      (ParallelConfig.withDefaults cfg).maxConcurrentRequests =
        cfg.maxConcurrentRequests) ∧
    (∀ (interval gasLimit : Nat) (value : Int) (counter : Nat)
        (o : IterOracle) (c1 : Nat),
      (loopStep interval gasLimit value counter o).out = .running c1 true →
        o.semFree = true) := by
  refine ⟨semCount_le_of_valid cap pre suf 0 (by omega) hvalid,
    fun h0 => by simp [ParallelConfig.withDefaults, h0],
    fun h0 => by simp [ParallelConfig.withDefaults, h0],
    fun interval gasLimit value counter o c1 h => ?_⟩
  unfold loopStep at h
  by_cases hc : o.cancelled
  · simp [hc] at h
  · simp only [hc, if_false, Bool.false_eq_true] at h
    by_cases hk : (counter + 1) % interval = 0
    · simp only [hk, if_true, if_pos] at h
      cases hcb : checkWalletBalance gasLimit value o with
      | error e => rw [hcb] at h; simp at h
      | ok hb =>
        rw [hcb] at h
        cases hb
        · simp at h
        · simp at h; exact h.2
    · simp only [hk, if_neg, if_false] at h
      simp at h
      exact h.2

/-- Closed witness for `c4_admission_bound`: a valid trace at capacity 2
whose prefix holds one slot. -/
theorem c4_admission_bound_witness :
    semValidFrom 2 0
      ([SemEvent.acquire, SemEvent.acquire, SemEvent.release] ++
        [SemEvent.release]) = true ∧
    semCountFrom 0 [SemEvent.acquire, SemEvent.acquire, SemEvent.release] ≤ 2 := by
  have h := c4_admission_bound
    { value := 1, gasLimit := 21000, maxTransactions := 0,
      maxConcurrentRequests := 0, balanceCheckInterval := 0, maxRetries := 0,
      retryDelay := 0 } 2
    [SemEvent.acquire, SemEvent.acquire, SemEvent.release] [SemEvent.release]
    (by decide)
  exact ⟨by decide, h.1⟩

/-- C7: `FundWallets` spawns a funding attempt for every one of the `N`
targets (the count of attempted targets equals the list length, whatever
the failures), its result reports the aggregate number of failed targets
(nil when none failed) rather than the first error, its semaphore keeps at
most 50 funding sends in flight, and in the 10-target scenario with 3
injected submission failures it attempts all 10 and reports exactly 3. -/
theorem c7_funding_failure_aggregation (outcomes : List FundOutcome)
    (pre suf : List SemEvent)
    (hvalid : semValidFrom fundingSemCapacity 0 (pre ++ suf) = true) :
    (fundWalletsRun outcomes).1 = outcomes.length ∧
    fundWallets outcomes =
      (if 0 < outcomes.countP (fun o => decide (o ≠ FundOutcome.ok))
       then some (outcomes.countP (fun o => decide (o ≠ FundOutcome.ok)))
       else none) ∧
    semCountFrom 0 pre ≤ fundingSemCapacity ∧
    (fundWalletsRun
      (List.replicate 7 FundOutcome.ok ++
        List.replicate 3 FundOutcome.sendErr)).1 = 10 ∧
    fundWallets
      (List.replicate 7 FundOutcome.ok ++
        List.replicate 3 FundOutcome.sendErr) = some 3 := by
  refine ⟨fundWalletsRun_fst outcomes, ?_,
    semCount_le_of_valid fundingSemCapacity pre suf 0 (by omega) hvalid,
    by decide, by decide⟩
  simp [fundWallets, fundWalletsRun_snd_length]

/-- Closed witness for `c7_funding_failure_aggregation` on a 3-target batch
with one failure and a small valid semaphore trace. -/
theorem c7_funding_failure_aggregation_witness :
    semValidFrom fundingSemCapacity 0
      ([SemEvent.acquire] ++ [SemEvent.release]) = true ∧
    fundWallets [FundOutcome.ok, FundOutcome.sendErr, FundOutcome.ok] =
      some 1 := by
  have h := c7_funding_failure_aggregation
    [FundOutcome.ok, FundOutcome.sendErr, FundOutcome.ok]
    [SemEvent.acquire] [SemEvent.release] (by decide)
  refine ⟨by decide, ?_⟩
  rw [h.2.1]
  decide

/-- C8 counterexample: the stored error list is NOT a ring of the most
recent errors.  Feeding the 1001 distinct errors `0, …, 1000` into
`recordError` retains exactly the FIRST 1000 of them, and the most recent
error `1000` is absent. -/
theorem c8_recent_errors_counterexample :
    List.foldl recordError ([] : List Nat)
      (List.range (maxStoredErrors + 1)) = List.range maxStoredErrors ∧
    maxStoredErrors ∉
      List.foldl recordError ([] : List Nat)
        (List.range (maxStoredErrors + 1)) := by
  have h := foldl_recordError (List.range (maxStoredErrors + 1)) [] (by simp)
  simp only [List.nil_append, List.length_nil, Nat.sub_zero] at h
  have htake : (List.range (maxStoredErrors + 1)).take maxStoredErrors =
      List.range maxStoredErrors := by
    rw [List.take_range]
    congr 1
  rw [h, htake]
  exact ⟨rfl, by simp⟩

/-- C8 amended: `recordError` never lets the stored error list exceed 1000
entries, but the entries retained under sustained failure are the first
1000 errors recorded — later errors are discarded, so the retained entries
are the oldest, not the most recent. -/
theorem c8_error_cap_first_entries {α : Type} (l : List α) (e : α)
    (es : List α) (h : l.length ≤ maxStoredErrors) :
    (recordError l e).length ≤ maxStoredErrors ∧
    List.foldl recordError ([] : List α) es = es.take maxStoredErrors := by
  constructor
  · by_cases hlt : l.length < maxStoredErrors <;>
      simp [recordError, hlt] <;> omega
  · simpa using foldl_recordError es [] (by simp)

/-- Closed witness for `c8_error_cap_first_entries`. -/
theorem c8_error_cap_first_entries_witness :
    ([0, 1] : List Nat).length ≤ maxStoredErrors ∧
    (recordError [0, 1] (2 : Nat)).length ≤ maxStoredErrors ∧
    List.foldl recordError ([] : List Nat) [5, 6] =
      [5, 6].take maxStoredErrors := by
  have h := c8_error_cap_first_entries [0, 1] (2 : Nat) [5, 6] (by decide)
  exact ⟨by decide, h.1, h.2⟩

/-- C9: `GenerateWallets n` always returns a slice of length exactly `n`;
an index whose key generation failed is left `nil` (neither regenerated
nor removed), and an index whose key generation succeeded holds the wallet
built from that key. -/
theorem c9_generate_wallets_nil (keyGen : Nat → Option Nat)
    (pubkeyToAddress : Nat → Nat) (n i : Nat) (hi : i < n) :
    (generateWallets keyGen pubkeyToAddress n).length = n ∧
    (keyGen i = none →
      (generateWallets keyGen pubkeyToAddress n)[i]? = some none) ∧
    (∀ k, keyGen i = some k →
      (generateWallets keyGen pubkeyToAddress n)[i]? =
        some (some { privateKey := k, address := pubkeyToAddress k })) := by
  refine ⟨by simp [generateWallets], ?_, ?_⟩
  · intro hk
    simp [generateWallets, List.getElem?_map, List.getElem?_range hi, hk]
  · intro k hk
    simp [generateWallets, List.getElem?_map, List.getElem?_range hi, hk]

/-- Closed witness for `c9_generate_wallets_nil`: key generation fails at
index 1 of 3, leaving a `nil` hole. -/
theorem c9_generate_wallets_nil_witness :
    (1 < 3 ∧
      (generateWallets (fun j => if j = 1 then none else some j) id 3)[1]? =
        some none) ∧
    (generateWallets (fun j => if j = 1 then none else some j) id 3).length
      = 3 := by
  have h := c9_generate_wallets_nil
    (fun j => if j = 1 then none else some j) id 3 1 (by decide)
  exact ⟨⟨by decide, h.2.1 (by decide)⟩, h.1⟩

/-- C10: `CheckBalance` returns true exactly when the balance strictly
exceeds the configured minimum; at exact equality it returns false, and
`runParallel` then keeps only the original wallet (no fleet is created). -/
theorem c10_check_balance_strict (b m : Int) (wc : Nat) :
    checkBalance (.ok b) m = .ok (decide (m < b), b) ∧
    checkBalance (.ok m) m = .ok (false, m) ∧
    runParallelWalletTotal (decide (m < m)) wc = 1 := by
  refine ⟨rfl, ?_, ?_⟩ <;> simp [checkBalance, runParallelWalletTotal]

theorem delays_range_shift (D a g : Nat) :
    (List.range (g + 1)).map (fun i => D * (a + 1 + i)) =
      D * (a + 1) :: (List.range g).map (fun i => D * (a + 2 + i)) := by
  rw [List.range_succ_eq_map, List.map_cons, List.map_map]
  have hfun : ((fun i => D * (a + 1 + i)) ∘ Nat.succ) =
      fun i => D * (a + 2 + i) := by
    funext i
    simp only [Function.comp, Nat.succ_eq_add_one]
    ring_nf
  rw [hfun]

theorem retryLoop_send_always_fails (M D : Nat) (o : AttemptOracles)
    (hn : ∀ a, exceptOk (o.nonce a) = true)
    (hg : ∀ a, exceptOk (o.gasPrice a) = true)
    (hs : ∀ a, exceptOk (o.sign a) = true)
    (hsend : ∀ a, exceptOk (o.send a) = false) :
    ∀ (fuel a : Nat), a + fuel = M + 1 →
      retryLoop M D o a fuel =
        { attempts := fuel,
          delays := (List.range (fuel - 1)).map (fun i => D * (a + 1 + i)),
          recordedErrors := 1, failedCount := 1, success := false } := by
  intro fuel
  induction fuel with
  | zero => intro a _; simp [retryLoop]
  | succ f ih =>
    intro a ha
    obtain ⟨nv, hnv⟩ : ∃ v, o.nonce a = .ok v := by
      cases h0 : o.nonce a with
      | error e => exact absurd (hn a) (by simp [exceptOk, h0])
      | ok v => exact ⟨v, rfl⟩
    obtain ⟨gv, hgv⟩ : ∃ v, o.gasPrice a = .ok v := by
      cases h0 : o.gasPrice a with
      | error e => exact absurd (hg a) (by simp [exceptOk, h0])
      | ok v => exact ⟨v, rfl⟩
    obtain ⟨sv, hsv⟩ : ∃ v, o.sign a = .ok v := by
      cases h0 : o.sign a with
      | error e => exact absurd (hs a) (by simp [exceptOk, h0])
      | ok v => exact ⟨v, rfl⟩
    obtain ⟨ev, hev⟩ : ∃ e, o.send a = .error e := by
      cases h0 : o.send a with
      | error e => exact ⟨e, rfl⟩
      | ok v => exact absurd (hsend a) (by simp [exceptOk, h0])
    simp only [retryLoop, hnv, hgv, hsv, hev]
    by_cases haM : a < M
    · simp only [if_pos haM]
      rw [ih (a + 1) (by omega)]
      cases f with
      | zero => omega
      | succ g =>
        simp only [Nat.add_sub_cancel]
        rw [delays_range_shift D a g]
    · have hf0 : f = 0 := by omega
      subst hf0
      simp [if_neg haM]

theorem retryLoop_gas_always_fails (M D : Nat) (o : AttemptOracles)
    (hn : ∀ a, exceptOk (o.nonce a) = true)
    (hg : ∀ a, exceptOk (o.gasPrice a) = false) :
    ∀ (fuel a : Nat), a + fuel = M + 1 →
      retryLoop M D o a fuel =
        { attempts := fuel,
          delays := (List.range (fuel - 1)).map (fun i => D * (a + 1 + i)),
          recordedErrors := 1, failedCount := 1, success := false } := by
  intro fuel
  induction fuel with
  | zero => intro a _; simp [retryLoop]
  | succ f ih =>
    intro a ha
    obtain ⟨nv, hnv⟩ : ∃ v, o.nonce a = .ok v := by
      cases h0 : o.nonce a with
      | error e => exact absurd (hn a) (by simp [exceptOk, h0])
      | ok v => exact ⟨v, rfl⟩
    obtain ⟨ev, hev⟩ : ∃ e, o.gasPrice a = .error e := by
      cases h0 : o.gasPrice a with
      | error e => exact ⟨e, rfl⟩
      | ok v => exact absurd (hg a) (by simp [exceptOk, h0])
    simp only [retryLoop, hnv, hev]
    by_cases haM : a < M
    · simp only [if_pos haM]
      rw [ih (a + 1) (by omega)]
      cases f with
      | zero => omega
      | succ g =>
        simp only [Nat.add_sub_cancel]
        rw [delays_range_shift D a g]
    · have hf0 : f = 0 := by omega
      subst hf0
      simp [if_neg haM]

/-- C5: retry policy of one send attempt.  With a submission stub that
always fails (other stages healthy) the attempt runs exactly
`maxRetries + 1` loop iterations — i.e. `maxRetries` retries after the
first try — sleeping `retryDelay * attemptNumber` before each retry, and
records exactly one failure; an always-failing fee estimate behaves the
same; a sequence-allocation failure ends the attempt immediately with one
recorded failure and no backoff; the defaults are `maxRetries = 3` and
`retryDelay = 100` ms; and an iteration of the wallet loop that dispatches
an attempt continues running irrespective of the attempt's oracles, so a
failed attempt never aborts the loop. -/
theorem c5_retry_policy (cfg : ParallelConfig) (o : AttemptOracles) :
    ((∀ a, exceptOk (o.nonce a) = true) →
      (∀ a, exceptOk (o.gasPrice a) = true) →
      (∀ a, exceptOk (o.sign a) = true) →
      (∀ a, exceptOk (o.send a) = false) →
      sendTransactionWithRetry cfg o =
        { attempts := cfg.maxRetries + 1,
          delays := (List.range cfg.maxRetries).map
            (fun a => cfg.retryDelay * (a + 1)),
          recordedErrors := 1, failedCount := 1, success := false }) ∧
    ((∀ a, exceptOk (o.nonce a) = true) →
      (∀ a, exceptOk (o.gasPrice a) = false) →
      sendTransactionWithRetry cfg o =
        { attempts := cfg.maxRetries + 1,
          delays := (List.range cfg.maxRetries).map
            (fun a => cfg.retryDelay * (a + 1)),
          recordedErrors := 1, failedCount := 1, success := false }) ∧
    (∀ e, o.nonce 0 = .error e →
      sendTransactionWithRetry cfg o =
        { attempts := 1, delays := [], recordedErrors := 1,
          failedCount := 1, success := false }) ∧
    (cfg.maxRetries = 0 → (cfg.withDefaults).maxRetries = 3) ∧
    (cfg.retryDelay = 0 → (cfg.withDefaults).retryDelay = 100) ∧
    (∀ (interval gasLimit : Nat) (value : Int) (counter : Nat)
        (io : IterOracle),
      io.cancelled = false → (counter + 1) % interval ≠ 0 →
        (loopStep interval gasLimit value counter io).out =
          .running (counter + 1) io.semFree) := by
  have hfun : (fun i => cfg.retryDelay * (0 + 1 + i)) =
      fun a => cfg.retryDelay * (a + 1) := by
    funext i; ring_nf
  refine ⟨fun hn hg hs hsend => ?_, fun hn hg => ?_, fun e he => ?_,
    fun h0 => by simp [ParallelConfig.withDefaults, h0],
    fun h0 => by simp [ParallelConfig.withDefaults, h0],
    fun interval gasLimit value counter io hc hk => ?_⟩
  · rw [sendTransactionWithRetry,
      retryLoop_send_always_fails cfg.maxRetries cfg.retryDelay o hn hg hs
        hsend (cfg.maxRetries + 1) 0 (by omega)]
    simp only [Nat.add_sub_cancel, hfun]
  · rw [sendTransactionWithRetry,
      retryLoop_gas_always_fails cfg.maxRetries cfg.retryDelay o hn hg
        (cfg.maxRetries + 1) 0 (by omega)]
    simp only [Nat.add_sub_cancel, hfun]
  · simp only [sendTransactionWithRetry, retryLoop, he]
  · simp [loopStep, hc, hk]

/-- Closed witness for `c5_retry_policy`: maxRetries 3, retryDelay 100,
always-failing submission: 4 loop iterations (3 retries), sleeps
100/200/300 ms, one recorded failure. -/
theorem c5_retry_policy_witness :
    sendTransactionWithRetry
      { value := 1, gasLimit := 21000, maxTransactions := 0,
        maxConcurrentRequests := 2000, balanceCheckInterval := 100,
        maxRetries := 3, retryDelay := 100 }
      { nonce := fun _ => .ok 0, gasPrice := fun _ => .ok 1,
        sign := fun _ => .ok (), send := fun _ => .error (.remote "down") } =
      { attempts := 4, delays := [100, 200, 300],
        recordedErrors := 1, failedCount := 1, success := false } := by
  have h := (c5_retry_policy
    { value := 1, gasLimit := 21000, maxTransactions := 0,
      maxConcurrentRequests := 2000, balanceCheckInterval := 100,
      maxRetries := 3, retryDelay := 100 }
    { nonce := fun _ => .ok 0, gasPrice := fun _ => .ok 1,
      sign := fun _ => .ok (), send := fun _ => .error (.remote "down") }).1
    (fun _ => rfl) (fun _ => rfl) (fun _ => rfl) (fun _ => rfl)
  rw [h]
  decide

theorem loopRun_exhausts (K gasLimit : Nat) (value : Int) (hK : 0 < K)
    (oracles : Nat → IterOracle)
    (h : ∀ c, (oracles c).cancelled = false ∧
      checkWalletBalance gasLimit value (oracles c) = .ok false) :
    ∀ (fuel counter : Nat), K - counter % K ≤ fuel →
      loopRun K gasLimit value oracles counter fuel =
        .exited .outOfBalance false := by
  intro fuel
  induction fuel with
  | zero =>
    intro counter hf
    exact absurd hf (by have := Nat.mod_lt counter hK; omega)
  | succ f ih =>
    intro counter hf
    have hc := (h counter).1
    have hcb := (h counter).2
    by_cases hk : (counter + 1) % K = 0
    · have hstep : loopStep K gasLimit value counter (oracles counter) =
        { out := .exited .outOfBalance, recorded := false,
          checkedBalance := true } := by
        simp [loopStep, hc, hk, hcb]
      simp [loopRun, hstep]
    · have hstep : loopStep K gasLimit value counter (oracles counter) =
        { out := .running (counter + 1) (oracles counter).semFree,
          recorded := false, checkedBalance := false } := by
        simp [loopStep, hc, hk]
      rw [loopRun]
      simp only [hstep]
      apply ih
      have hmlt : counter % K < K := Nat.mod_lt counter hK
      have hmod : (counter + 1) % K = (counter % K + 1 % K) % K :=
        Nat.add_mod counter 1 K
      rcases Nat.lt_or_ge 1 K with hK2 | hK1
      · have h1 : 1 % K = 1 := Nat.mod_eq_of_lt hK2
        rw [h1] at hmod
        by_cases hsum : counter % K + 1 = K
        · rw [hsum] at hmod
          simp at hmod
          exact absurd hmod hk
        · have h2 : (counter % K + 1) % K = counter % K + 1 :=
            Nat.mod_eq_of_lt (by omega)
          rw [h2] at hmod
          omega
      · have hK1' : K = 1 := by omega
        subst hK1'
        simp [Nat.mod_one] at hk

/-- C6: the dispatch loop performs a balance check exactly at every
`K`-th iteration (`balanceCheckCounter` divisible by the interval);
that check compares the balance against
`required = gasPrice * gasLimit + value`; when the check reports an
insufficient balance the loop exits silently (no `recordError` call); as
soon as the balance stays below `required`, the whole loop terminates
gracefully within one balance-check interval; the default interval is
100. -/
theorem c6_balance_check_exhaustion (K gasLimit : Nat) (value : Int)
    (hK : 0 < K) :
    (∀ (counter : Nat) (o : IterOracle), o.cancelled = false →
      (loopStep K gasLimit value counter o).checkedBalance =
        decide ((counter + 1) % K = 0)) ∧
    (∀ (o : IterOracle) (bal gp : Int), o.cacheHit = false →
      o.balanceAt = .ok bal → o.suggestGasPrice = .ok gp →
      checkWalletBalance gasLimit value o =
        .ok (decide (gp * (gasLimit : Int) + value ≤ bal))) ∧
    (∀ (counter : Nat) (o : IterOracle), o.cancelled = false →
      (counter + 1) % K = 0 →
      checkWalletBalance gasLimit value o = .ok false →
      loopStep K gasLimit value counter o =
        { out := .exited .outOfBalance, recorded := false,
          checkedBalance := true }) ∧
    (∀ (oracles : Nat → IterOracle),
      (∀ c, (oracles c).cancelled = false ∧
        checkWalletBalance gasLimit value (oracles c) = .ok false) →
      ∀ (fuel counter : Nat), K - counter % K ≤ fuel →
        loopRun K gasLimit value oracles counter fuel =
          .exited .outOfBalance false) ∧
    (∀ cfg : ParallelConfig, cfg.balanceCheckInterval = 0 →
      (cfg.withDefaults).balanceCheckInterval = 100) := by
  refine ⟨fun counter o hc => ?_, fun o bal gp hch hb hgp => ?_,
    fun counter o hc hk hcb => ?_,
    fun oracles h fuel counter hf =>
      loopRun_exhausts K gasLimit value hK oracles h fuel counter hf,
    fun cfg h0 => by simp [ParallelConfig.withDefaults, h0]⟩
  · by_cases hk : (counter + 1) % K = 0
    · simp only [loopStep, hc, Bool.false_eq_true, if_false, hk, if_pos]
      cases hcb : checkWalletBalance gasLimit value o with
      | error e => simp [hcb, hk]
      | ok hb => cases hb <;> simp [hcb, hk]
    · simp [loopStep, hc, hk]
  · simp [checkWalletBalance, hch, hb, hgp, minRequired, ge_iff_le]
  · simp [loopStep, hc, hk, hcb]

/-- Closed witness for `c6_balance_check_exhaustion`: interval 2, gas limit
21000, payment 1, constant balance 0 and gas price 1 (required 21001):
the loop exits `outOfBalance` with no recorded error within 2 iterations. -/
theorem c6_balance_check_exhaustion_witness :
    0 < 2 ∧
      loopRun 2 21000 1
        (fun _ =>
          { cancelled := false, cacheHit := false, cachedBalance := 0,
            balanceAt := .ok 0, suggestGasPrice := .ok 1, semFree := true })
        0 2 = .exited .outOfBalance false := by
  have h := (c6_balance_check_exhaustion 2 21000 1 (by decide)).2.2.2.1
    (fun _ =>
      { cancelled := false, cacheHit := false, cachedBalance := 0,
        balanceAt := .ok 0, suggestGasPrice := .ok 1, semFree := true })
    (fun _ => ⟨rfl, rfl⟩) 2 0 (by decide)
  exact ⟨by decide, h⟩

end EthTxSim
